import Mathlib

/-!
Verification of the per-source modeling core of the scarlet repository
(file scarlet/source.py).  The Python code is shallowly embedded: machine
floats for centers and array entries become rationals, numpy arrays become
dimension fields plus total index functions, Python exceptions become an
explicit error type, and the external proxmin / transformations collaborators
are represented symbolically (their construction arguments are recorded; the
few external operators whose pointwise semantics a claim needs are given the
standard definitions stated in the specification).
-/

namespace Scarlet

/-- Rounding used by numpy.round: round to nearest, ties to even.
Embeds the center_int property of Source (source.py line 116). -/
def npRound (q : ℚ) : ℤ :=
  if q - q.floor = 1/2 then (if 2 ∣ q.floor then q.floor else q.floor + 1)
  else (q + 1/2).floor

/-- The frame edges of a source in full-image pixel coordinates
(fields bottom, top, left, right of the Python Source object). -/
structure Frame where
  bottom : ℤ
  top : ℤ
  left : ℤ
  right : ℤ
deriving DecidableEq

/-- Frame height, Source.Ny (source.py line 97). -/
def Frame.ny (f : Frame) : ℤ := f.top - f.bottom

/-- Frame width, Source.Nx (source.py line 91). -/
def Frame.nx (f : Frame) : ℤ := f.right - f.left

/-- Source set_frame (source.py lines 209-219): edges computed from the
rounded center and the requested (height, width) sizes. -/
def setFrame (cy cx : ℚ) (sizeY sizeX : ℕ) : Frame :=
  { bottom := npRound cy - (sizeY / 2 : ℕ)
    top := npRound cy + (sizeY / 2 : ℕ) + 1
    left := npRound cx - (sizeX / 2 : ℕ)
    right := npRound cx + (sizeX / 2 : ℕ) + 1 }

/-- A Python slice with integer start and stop (start is always explicit and
non-negative in the embedded code; slice(None) is modeled separately where the
code produces it). -/
structure PySlice where
  start : ℤ
  stop : ℤ
deriving DecidableEq

/-- Effective stop index of a Python slice over an axis of length len:
a negative stop wraps around (Python sequence semantics), and the result is
clamped to the axis length. -/
def pyStopEff (len stop : ℤ) : ℤ :=
  min (if stop < 0 then len + stop else stop) len

/-- Membership of index i in the selection of a Python slice (with
non-negative start) over an axis of length len. -/
def PySlice.mem (s : PySlice) (len i : ℤ) : Prop :=
  s.start ≤ i ∧ i < pyStopEff len s.stop

instance (s : PySlice) (len i : ℤ) : Decidable (s.mem len i) := by
  unfold PySlice.mem; infer_instance

/-- Number of indices selected by a Python slice with non-negative start
(the shape of the selected sub-array along that axis). -/
def PySlice.selLen (s : PySlice) (len : ℤ) : ℤ :=
  max 0 (pyStopEff len s.stop - max s.start 0)

/-- Source.get_slice_for (source.py lines 124-142): the slice of the frame,
in local frame coordinates, meant to correspond to the part of the frame
inside a full image of spatial shape (NY, NX).  First component is the y
slice, second the x slice. -/
def getSliceFor (f : Frame) (NY NX : ℤ) : PySlice × PySlice :=
  (⟨max 0 (-f.bottom), f.ny - max 0 (f.top - NY)⟩,
   ⟨max 0 (-f.left), f.nx - max 0 (f.right - NX)⟩)

/-- Source.bb (source.py line 223): the bounding-box slices into the full
image, with start indices clamped to zero. -/
def bbOf (f : Frame) : PySlice × PySlice :=
  (⟨max 0 f.bottom, f.top⟩, ⟨max 0 f.left, f.right⟩)

/-- The full-image pixels of the overlap of frame f with an image of spatial
shape (NY, NX), expressed in local frame coordinates: local pixel (y, x) of
the frame lies inside the image. -/
def overlapLocal (f : Frame) (NY NX y x : ℤ) : Prop :=
  0 ≤ y ∧ y < f.ny ∧ 0 ≤ x ∧ x < f.nx ∧
  0 ≤ f.bottom + y ∧ f.bottom + y < NY ∧ 0 ≤ f.left + x ∧ f.left + x < NX

instance (f : Frame) (NY NX y x : ℤ) : Decidable (overlapLocal f NY NX y x) := by
  unfold overlapLocal; infer_instance

/-- The local frame pixels selected by get_slice_for, under Python slice
semantics, for a frame-local array of shape (f.ny, f.nx). -/
def sliceSel (f : Frame) (NY NX y x : ℤ) : Prop :=
  (getSliceFor f NY NX).1.mem f.ny y ∧ (getSliceFor f NY NX).2.mem f.nx x

instance (f : Frame) (NY NX y x : ℤ) : Decidable (sliceSel f NY NX y x) := by
  unfold sliceSel; infer_instance

/-- The numpy assignment image[bb] = local_image[slice] (as in
source.py line 334): entries of the bb selection of the full image are
overwritten positionally by entries of the get_slice_for selection of the
frame-local image; all other full-image entries keep their value.  The i-th
selected row (and j-th selected column) of the destination receives the i-th
selected row (j-th column) of the source. -/
def pasteAt (f : Frame) (NY NX : ℤ) (full locim : ℤ → ℤ → ℚ) : ℤ → ℤ → ℚ :=
  fun Y X =>
    if (bbOf f).1.mem NY Y ∧ (bbOf f).2.mem NX X then
      locim ((getSliceFor f NY NX).1.start + (Y - (bbOf f).1.start))
            ((getSliceFor f NY NX).2.start + (X - (bbOf f).2.start))
    else full Y X

/-- Python exceptions that Source.set_constraints can raise. -/
inductive PyErr where
  | keyError
  | attributeError
deriving DecidableEq

/-- The constraint keys recognized by Source.set_constraints
(source.py lines 441-524): "+", "l0", "l1", "m", "M", "S", "C", "X", "Y". -/
inductive CKey where
  | plus
  | l0
  | l1
  | m
  | M
  | S
  | C
  | X
  | Y
deriving DecidableEq

/-- A parameter value attached to a constraint key in a constraint dict:
a float threshold, a boolean use-nearest flag, or Python None. -/
inductive Param where
  | q (v : ℚ)
  | b (v : Bool)
  | pynone
deriving DecidableEq

/-- Linear constraint operators built by set_constraints for the dualized
constraint list, represented symbolically by the external constructor called
and the arguments it receives. -/
inductive LinOp where
  | radialMonotonic (shape : ℤ × ℤ) (useNearest : Param)
  | symmetry (shape : ℤ × ℤ)
  | gradX (shape : ℤ × ℤ) (cx : ℤ)
  | gradY (shape : ℤ × ℤ) (cy : ℤ)
deriving DecidableEq

/-- Proximal operators named by set_constraints, represented symbolically by
the external operator (and its construction arguments).  altProj is
proxmin's AlternatingProjections composition with its repeat count. -/
inductive ProxOp where
  | identity
  | plus
  | unityPlus
  | zero
  | hard (thresh : Param)
  | soft (thresh : Param)
  | strictMonotonic (shape : ℤ × ℤ) (thresh : Param)
  | cone (G : LinOp)
  | altProj (ops : List ProxOp) (rep : ℕ)

/-- Intermediate state while set_constraints iterates over the constraint
keys: the single shared morphology-operator list (the Python expression
[[],]*K aliases one list object into every component slot, so every append
of every component lands in this one list), and the Ls[1] and proxs_g[1]
accumulator lists. -/
structure BuildState where
  shared : List ProxOp
  ls : List (Option LinOp)
  ps : List (Option ProxOp)

/-- One iteration of the key loop of set_constraints (source.py lines
441-524) on constraint key c: direct keys append per-component operators to
the shared morphology list; dualized keys append one (linear operator,
proximal operator) slot per component, None for components that do not
declare the key.  The "M" branch reads component 0's parameter
unconditionally (KeyError when component 0 does not declare "M"); the "C"
branch calls .get on the constraints list (AttributeError always, since
lists have no .get). -/
def stepKey (K : ℕ) (shape : ℤ × ℤ) (cs : ℕ → CKey → Option Param)
    (c : CKey) (st : BuildState) : Except PyErr BuildState :=
  match c with
  | .plus => .ok { st with shared := st.shared ++
      (List.range K).filterMap (fun k => (cs k .plus).map (fun _ => ProxOp.plus)) }
  | .l0 => .ok { st with shared := st.shared ++
      (List.range K).filterMap (fun k => (cs k .l0).map (fun t => ProxOp.hard t)) }
  | .l1 => .ok { st with shared := st.shared ++
      (List.range K).filterMap (fun k => (cs k .l1).map (fun t => ProxOp.soft t)) }
  | .m => .ok { st with shared := st.shared ++
      (List.range K).filterMap (fun k =>
        (cs k .m).map (fun t => ProxOp.strictMonotonic shape t)) }
  | .M =>
    match cs 0 .M with
    | Option.none => .error .keyError
    | some p => .ok { st with
        ls := st.ls ++ (List.range K).map (fun k =>
          if (cs k .M).isSome then some (LinOp.radialMonotonic shape p) else Option.none),
        ps := st.ps ++ (List.range K).map (fun k =>
          if (cs k .M).isSome then some ProxOp.plus else Option.none) }
  | .S => .ok { st with
      ls := st.ls ++ (List.range K).map (fun k =>
        if (cs k .S).isSome then some (LinOp.symmetry shape) else Option.none),
      ps := st.ps ++ (List.range K).map (fun k =>
        if (cs k .S).isSome then some ProxOp.zero else Option.none) }
  | .C => .error .attributeError
  | .X => .ok { st with
      ls := st.ls ++ (List.range K).map (fun k =>
        if (cs k .X).isSome then some (LinOp.gradX shape shape.2) else Option.none),
      ps := st.ps ++ (List.range K).map (fun k =>
        (cs k .X).map (fun t => ProxOp.soft t)) }
  | .Y => .ok { st with
      ls := st.ls ++ (List.range K).map (fun k =>
        if (cs k .Y).isSome then some (LinOp.gradY shape shape.1) else Option.none),
      ps := st.ps ++ (List.range K).map (fun k =>
        (cs k .Y).map (fun t => ProxOp.soft t)) }

/-- Run the key loop of set_constraints over the given key iteration order
(Python iterates over a set of strings, whose order is implementation
defined, so the order is an explicit argument), stopping at the first
exception. -/
def runKeys (K : ℕ) (shape : ℤ × ℤ) (cs : ℕ → CKey → Option Param) :
    List CKey → BuildState → Except PyErr BuildState
  | [], st => .ok st
  | c :: rest, st =>
    match stepKey K shape cs c st with
    | .error e => .error e
    | .ok st' => runKeys K shape cs rest st'

/-- Final collapse of a component's morphology operator list (source.py
lines 528-535): identity when empty, the single operator when a singleton,
otherwise AlternatingProjections with repeat=1. -/
def collapseShared : List ProxOp → ProxOp
  | [] => ProxOp.identity
  | [op] => op
  | ops => ProxOp.altProj ops 1

/-- The outputs of Source.set_constraints: prox_sed, prox_morph (one entry
per component), and the dualized lists Ls[1] and proxs_g[1]. -/
structure Compiled where
  proxSed : List ProxOp
  proxMorph : List ProxOp
  ls1 : List (Option LinOp)
  ps1 : List (Option ProxOp)

/-- Source.set_constraints (source.py lines 398-535).  cs k is the
constraint dict of component k (the code replicates a single dict K times,
which this argument form absorbs), shape is (Ny, Nx), and order is the
Python set-iteration order over the union of declared keys.  Because
prox_morph is initialized as [[],]*K — K references to a single shared
list — every component's final operator is collapsed from the one shared
list holding the appends of all components. -/
def setConstraints (K : ℕ) (shape : ℤ × ℤ) (cs : ℕ → CKey → Option Param)
    (order : List CKey) : Except PyErr Compiled :=
  match runKeys K shape cs order ⟨[], [], []⟩ with
  | .error e => .error e
  | .ok st => .ok ⟨List.replicate K ProxOp.unityPlus,
                   List.replicate K (collapseShared st.shared), st.ls, st.ps⟩

/-- numpy sign function on rationals. -/
def qsign (x : ℚ) : ℚ := if x < 0 then -1 else if x = 0 then 0 else 1

/-- Pointwise semantics of the atomic elementwise proximal operators of the
external proxmin library, with the definitions the specification gives them:
prox_plus is the non-negativity projection, prox_soft(., t) the
soft-threshold shrinkage sign(x)*max(|x|-t, 0), prox_hard(., t) the hard
threshold, prox_zero the zero map, prox_id the identity.  Operators that are
not elementwise (unityPlus, strictMonotonic, cone) and nested compositions
are never evaluated pointwise by the verified code paths and default to the
identity here. -/
def evalAtom : ProxOp → ℚ → ℚ
  | .plus, x => max x 0
  | .soft (.q t), x => qsign x * max (|x| - t) 0
  | .hard (.q t), x => if |x| < t then 0 else x
  | .zero, _ => 0
  | _, x => x

/-- Pointwise semantics of a composed morphology operator: an
AlternatingProjections node applies its member operators sequentially in
list order and repeats the whole pass rep times; atomic operators evaluate
by evalAtom. -/
def evalProx : ProxOp → ℚ → ℚ
  | .altProj ops rep, x => (fun y => ops.foldl (fun a op => evalAtom op a) y)^[rep] x
  | op, x => evalAtom op x

/-- Recorded construction arguments of the Gamma operator: the sub-pixel
offset (dy, dx) and the target shape (B, Ny, Nx) handed to the external
GammaOp provider (source.py lines 232-233). -/
structure GammaVal where
  dy : ℚ
  dx : ℚ
  B : ℕ
  ny : ℤ
  nx : ℤ
deriving DecidableEq

/-- The state of a Python Source object (the fields the verified operations
touch).  Arrays are modeled by explicit dimension fields plus total index
functions.  morph is stored in its 2D (component, row, column) view; the
flat (K, Ny*Nx) buffer of the code corresponds to it by row-major indexing,
and morphCols records the flat row length Ny*Nx. -/
structure Source where
  B : ℕ
  K : ℕ
  centerY : ℚ
  centerX : ℚ
  frame : Frame
  sedRows : ℕ
  sedCols : ℕ
  sed : ℕ → ℕ → ℚ
  morphRows : ℕ
  morphCols : ℤ
  morph : ℕ → ℤ → ℤ → ℚ
  gamma : GammaVal
  hasPsf : Bool
  constraints : ℕ → CKey → Option Param
  compiled : Except PyErr Compiled

/-- Source.set_center (source.py lines 225-233): rebuild the frame around
the new center keeping the current frame size, then build a new Gamma from
the residual sub-pixel offset and the (new) frame shape. -/
def setCenter (S : Source) (cy cx : ℚ) : Source :=
  { S with
    centerY := cy
    centerX := cx
    frame := setFrame cy cx S.frame.ny.toNat S.frame.nx.toNat
    gamma := ⟨cy - npRound cy, cx - npRound cx, S.B,
              (setFrame cy cx S.frame.ny.toNat S.frame.nx.toNat).ny,
              (setFrame cy cx S.frame.ny.toNat S.frame.nx.toNat).nx⟩ }

/-- The overlap slice of the old frame in the new local coordinate system,
as resize computes it (source.py lines 252-261): slice(None) — modeled as
Option.none — when the axis size is unchanged.  Arguments are the old and
new low/high edges of the axis. -/
def resizeSliceNew (oldLo oldHi newLo newHi : ℤ) : Option PySlice :=
  if oldHi - oldLo = newHi - newLo then Option.none
  else some ⟨max 0 (oldLo - newLo),
             min (newHi - newLo) (newHi - newLo - (newHi - oldHi))⟩

/-- The overlap slice of the new frame in the old local coordinate system,
as resize computes it (source.py lines 252-261). -/
def resizeSliceOld (oldLo oldHi newLo newHi : ℤ) : Option PySlice :=
  if oldHi - oldLo = newHi - newLo then Option.none
  else some ⟨max 0 (newLo - oldLo),
             min (oldHi - oldLo) (oldHi - oldLo - (oldHi - newHi))⟩

/-- Index membership for an optional slice over an axis of length len:
slice(None) selects the whole axis. -/
def memOptSlice : Option PySlice → ℤ → ℤ → Prop
  | Option.none, len, i => 0 ≤ i ∧ i < len
  | some s, len, i => s.mem len i

instance (s : Option PySlice) (len i : ℤ) : Decidable (memOptSlice s len i) := by
  cases s <;> unfold memOptSlice <;> infer_instance

/-- Start index of an optional slice (slice(None) starts at 0). -/
def startOpt : Option PySlice → ℤ
  | Option.none => 0
  | some s => s.start

/-- Source.resize (source.py lines 235-277).  The frame is rebuilt at the
current center with the new size; the old/new overlap is expressed as slices
in both local coordinate systems; when the slice tuples compare equal the
method does nothing more, otherwise the morphology is copied positionally
into a zero-filled array of the new shape, Gamma is rebuilt via set_center,
and the constraints are recompiled at the new shape (order being the key
iteration order of that recompilation). -/
def resize (S : Source) (sizeY sizeX : ℕ) (order : List CKey) : Source :=
  let f' := setFrame S.centerY S.centerX sizeY sizeX
  let nsy := resizeSliceNew S.frame.bottom S.frame.top f'.bottom f'.top
  let osy := resizeSliceOld S.frame.bottom S.frame.top f'.bottom f'.top
  let nsx := resizeSliceNew S.frame.left S.frame.right f'.left f'.right
  let osx := resizeSliceOld S.frame.left S.frame.right f'.left f'.right
  if nsy = osy ∧ nsx = osx then S
  else
    let newMorph : ℕ → ℤ → ℤ → ℚ := fun k y x =>
      if memOptSlice nsy f'.ny y ∧ memOptSlice nsx f'.nx x then
        S.morph k (startOpt osy + (y - startOpt nsy)) (startOpt osx + (x - startOpt nsx))
      else 0
    let S1 := { S with frame := f', morphRows := S.K, morphCols := f'.ny * f'.nx,
                       morph := newMorph }
    let S2 := setCenter S1 S.centerY S.centerX
    { S2 with compiled := setConstraints S.K (f'.ny, f'.nx) S.constraints order }

/-- The Source constructor (source.py lines 15-85): set the frame from the
requested spatial shape, allocate zero SED (K, B) and morphology
(K, Ny*Nx) containers, run set_center on the initial center, and compile
the constraints. -/
def mkSource (cy cx : ℚ) (Bbands h w K : ℕ) (hasPsf : Bool)
    (cs : ℕ → CKey → Option Param) (order : List CKey) : Source :=
  let f := setFrame cy cx h w
  let S0 : Source :=
    { B := Bbands, K := K, centerY := cy, centerX := cx, frame := f
      sedRows := K, sedCols := Bbands, sed := fun _ _ => 0
      morphRows := K, morphCols := f.ny * f.nx, morph := fun _ _ _ => 0
      gamma := ⟨0, 0, Bbands, f.ny, f.nx⟩, hasPsf := hasPsf
      constraints := cs, compiled := .ok ⟨[], [], [], []⟩ }
  let S1 := setCenter S0 cy cx
  { S1 with compiled := setConstraints K (f.ny, f.nx) cs order }

/-- Modelled from the specification of the external proxmin primitive
prox_unity_plus (spec sections 6 and 8): project to non-negative values and
normalize the result to unit sum (the zero-sum case is degenerate; rational
division by zero yields zero here). -/
def proxUnityPlusVec (n : ℕ) (v : ℕ → ℚ) : ℕ → ℚ :=
  fun i => max (v i) 0 / (∑ j ∈ Finset.range n, max (v j) 0)

/-- Source.init_source (source.py lines 279-312): reset sed to a (1, imB)
array holding the normalized SED of the rounded-center pixel of img, and
reset morph to a (1, Ny*Nx) array that is zero except for the summed center
flux (plus the tiny constant 1e-10) at the flat index (Ny//2)*Nx + Nx//2,
which is row Ny//2, column Nx//2 of the 2D view.  imB is img.shape[0]. -/
def initSource (S : Source) (imB : ℕ) (img : ℕ → ℤ → ℤ → ℚ) : Source :=
  { S with
    sedRows := 1
    sedCols := imB
    sed := fun i bnd =>
      if i = 0 then
        proxUnityPlusVec imB (fun j => img j (npRound S.centerY) (npRound S.centerX)) bnd
      else 0
    morphRows := 1
    morphCols := S.frame.ny * S.frame.nx
    morph := fun k y x =>
      if k = 0 ∧ y = S.frame.ny / 2 ∧ x = S.frame.nx / 2 then
        (∑ bnd ∈ Finset.range imB, img bnd (npRound S.centerY) (npRound S.centerX))
          + 1 / 10000000000
      else 0 }

/-- The weight sub-image of get_morph_error and get_sed_error (source.py
lines 333-335 and 382-384): a zero array of the frame shape whose
get_slice_for selection is overwritten positionally by the bb selection of
the full weight image. -/
def embedWeights (S : Source) (NY NX : ℤ) (weights : ℕ → ℤ → ℤ → ℚ) :
    ℕ → ℤ → ℤ → ℚ :=
  fun bnd y x =>
    if sliceSel S.frame NY NX y x then
      weights bnd ((bbOf S.frame).1.start + (y - (getSliceFor S.frame NY NX).1.start))
                  ((bbOf S.frame).2.start + (x - (getSliceFor S.frame NY NX).2.start))
    else 0

/-- The embedded weights in the flat (band, pixel) view used after
w.reshape(B, -1): flat pixel p is row p / Nx, column p % Nx. -/
def wFlat (S : Source) (NY NX : ℤ) (weights : ℕ → ℤ → ℤ → ℚ) : ℕ → ℤ → ℚ :=
  fun bnd p => embedWeights S NY NX weights bnd (p / S.frame.nx) (p % S.frame.nx)

/-- A component's morphology in the flat pixel view. -/
def morphFlat (S : Source) : ℕ → ℤ → ℚ :=
  fun k p => S.morph k (p / S.frame.nx) (p % S.frame.nx)

/-- Source.get_morph_error (source.py lines 314-364).  isqrt models the
floating-point map t to 1/sqrt(t); psfRaw models the pre-masking error
values of the sparse PSF branch (whose linear algebra is external); the
result is None when the code raises (the minimum over an empty unmasked set
when every pixel is masked).  Masked pixels (summed embedded weight exactly
zero) are given the substitute weight 1e-3 times the per-band minimum
unmasked weight before error propagation, and their error entries are set
to exactly zero afterwards. -/
def getMorphError (isqrt : ℚ → ℚ) (S : Source) (NY NX : ℤ)
    (weights : ℕ → ℤ → ℤ → ℚ) (psfRaw : ℕ → ℤ → ℚ) : Option (ℕ → ℤ → ℚ) :=
  let w := wFlat S NY NX weights
  let maskP : ℤ → Prop := fun p => (∑ bnd ∈ Finset.range S.B, w bnd p) = 0
  let pix := Finset.Ico (0 : ℤ) (S.frame.ny * S.frame.nx)
  let masked := pix.filter maskP
  let unmasked := pix.filter (fun p => ¬ maskP p)
  if masked.Nonempty then
    if hu : unmasked.Nonempty then
      let minb : ℕ → ℚ := fun bnd => (unmasked.image (fun p => w bnd p)).min' (hu.image _)
      let wsub : ℕ → ℤ → ℚ := fun bnd p => if maskP p then (1/1000) * minb bnd else w bnd p
      let raw : ℕ → ℤ → ℚ :=
        if S.hasPsf then psfRaw
        else fun k p => isqrt (∑ bnd ∈ Finset.range S.B, S.sed k bnd * (wsub bnd p * S.sed k bnd))
      some (fun k p => if maskP p then 0 else raw k p)
    else Option.none
  else
    some (if S.hasPsf then psfRaw
          else fun k p => isqrt (∑ bnd ∈ Finset.range S.B, S.sed k bnd * (w bnd p * S.sed k bnd)))

/-- Source.get_sed_error (source.py lines 366-396).  No masking of
zero-weight pixels takes place; the no-PSF branch returns, per component k
and band b, 1/sqrt of the weighted morphology quadratic form, and the PSF
branch (external sparse linear algebra) is modeled by psfRaw. -/
def getSedError (isqrt : ℚ → ℚ) (S : Source) (NY NX : ℤ)
    (weights : ℕ → ℤ → ℤ → ℚ) (psfRaw : ℕ → ℕ → ℚ) : ℕ → ℕ → ℚ :=
  if S.hasPsf then psfRaw
  else fun k bnd =>
    isqrt (∑ p ∈ Finset.Ico (0 : ℤ) (S.frame.ny * S.frame.nx),
      morphFlat S k p * (wFlat S NY NX weights bnd p * morphFlat S k p))

/-- Constraint spec where component 0 declares only "+" (with value None)
and component 1 declares only "l1" with threshold 1/10. -/
def csAliasBug : ℕ → CKey → Option Param := fun k c =>
  match k, c with
  | 0, CKey.plus => some Param.pynone
  | 1, CKey.l1 => some (Param.q (1/10))
  | _, _ => Option.none

/-- Constraint spec where only component 1 declares "M" (component 0 does
not). -/
def csOnlyComp1M : ℕ → CKey → Option Param := fun k c =>
  match k, c with
  | 1, CKey.M => some (Param.b true)
  | _, _ => Option.none

/-- Constraint spec where both components declare "M", with different
use-nearest parameters. -/
def csBothM : ℕ → CKey → Option Param := fun k c =>
  match k, c with
  | 0, CKey.M => some (Param.b true)
  | 1, CKey.M => some (Param.b false)
  | _, _ => Option.none

/-- Constraint spec declaring only "C" (for a single component). -/
def csOnlyC : ℕ → CKey → Option Param := fun _ c =>
  match c with
  | CKey.C => some (Param.b true)
  | _ => Option.none

/-- No entry of the list is a radial-monotonicity operator. -/
def noRadial (dls : List (Option LinOp)) : Prop :=
  ∀ L ∈ dls, ∀ s p, L ≠ some (LinOp.radialMonotonic s p)

/-- Source.set_constraints as a state operation on the Source object: store
the constraint spec and the recompiled operator structures; the sed and
morph containers are not touched (source.py lines 398-535). -/
def setConstraintsOp (S : Source) (cs : ℕ → CKey → Option Param)
    (order : List CKey) : Source :=
  { S with constraints := cs
           compiled := setConstraints S.K (S.frame.ny, S.frame.nx) cs order }

/-- The data-model shape invariant of the Source containers: sed has shape
(K, B), morph has shape (K, Ny*Nx), and the frame is a fixed point of
set_frame at its own size and center (which holds for every frame the code
builds, the sizes being forced odd). -/
def ShapeInv (S : Source) : Prop :=
  S.sedRows = S.K ∧ S.sedCols = S.B ∧ S.morphRows = S.K ∧
  S.morphCols = S.frame.ny * S.frame.nx ∧
  S.frame = setFrame S.centerY S.centerX S.frame.ny.toNat S.frame.nx.toNat

/-- A concrete one-band, one-component source with the 1-by-1 frame of
setFrame 0 0 1 1, used as input of witness theorems. -/
def sampleSource : Source :=
  { B := 1, K := 1, centerY := 0, centerX := 0, frame := ⟨0, 1, 0, 1⟩
    sedRows := 1, sedCols := 1, sed := fun _ _ => 0
    morphRows := 1, morphCols := 1, morph := fun _ _ _ => 0
    gamma := ⟨0, 0, 1, 1, 1⟩, hasPsf := false
    constraints := fun _ _ => Option.none, compiled := .ok ⟨[], [], [], []⟩ }

/-- A variant of sampleSource with a 1-by-2 frame sitting exactly on a
1-by-2 image, used for the error-estimator claims. -/
def maskSource : Source :=
  { sampleSource with frame := ⟨0, 1, 0, 2⟩, morphCols := 2,
                      morph := fun _ _ _ => 2 }

/-- A variant of sampleSource whose single morphology value is 2, used for
the get_sed_error counterexample. -/
def sedErrSource : Source :=
  { sampleSource with morph := fun _ _ _ => 2 }

/-- Weights over a 1-by-2 image vanishing at column 0 only. -/
def maskWeights : ℕ → ℤ → ℤ → ℚ := fun _ _ x => if x = 0 then 0 else 5

/-- A two-component variant of sampleSource, input of the init_source
counterexample. -/
def twoCompSource : Source :=
  { sampleSource with K := 2, sedRows := 2, morphRows := 2 }

lemma pyStopEff_of_nonneg (len stop : ℤ) (h : 0 ≤ stop) :
    pyStopEff len stop = min stop len := by
  unfold pyStopEff
  rw [if_neg (by omega)]

lemma ratFloor_eq_intFloor (q : ℚ) : q.floor = ⌊q⌋ := by
  rw [Rat.floor_def', ← Rat.floor_def]

lemma npRound_intCast (n : ℤ) : npRound (n : ℚ) = n := by
  unfold npRound
  rw [ratFloor_eq_intFloor, Int.floor_intCast, if_neg (by norm_num),
    ratFloor_eq_intFloor]
  have h2 : ⌊(1/2 : ℚ)⌋ = 0 := by
    rw [Int.floor_eq_zero_iff, Set.mem_Ico]
    norm_num
  rw [Int.floor_int_add, h2, add_zero]

end Scarlet

namespace Scarlet

/-- Claim C5: for every center and every requested size (h, w), the frame
produced by set_frame has height 2*(h/2)+1 and width 2*(w/2)+1 — hence
exactly h and w whenever h and w are odd (independently of any surrounding
image, which set_frame never consults) — and the rounded center pixel lies at
the frame midpoint on both axes. -/
theorem setFrame_odd_shape_and_centered (cy cx : ℚ) (h w : ℕ) :
    (setFrame cy cx h w).ny = 2 * (h / 2 : ℕ) + 1 ∧
    (setFrame cy cx h w).nx = 2 * (w / 2 : ℕ) + 1 ∧
    (Odd h → (setFrame cy cx h w).ny = h) ∧
    (Odd w → (setFrame cy cx h w).nx = w) ∧
    npRound cy - (setFrame cy cx h w).bottom = (setFrame cy cx h w).ny / 2 ∧
    npRound cx - (setFrame cy cx h w).left = (setFrame cy cx h w).nx / 2 := by
  refine ⟨?_, ?_, fun ⟨k, hk⟩ => ?_, fun ⟨k, hk⟩ => ?_, ?_, ?_⟩ <;>
    simp only [setFrame, Frame.ny, Frame.nx] <;> omega

/-- Witness for C5 at a sub-pixel center and odd sizes. -/
theorem setFrame_odd_shape_and_centered_witness :
    (setFrame (3/2) (-5/2) 5 7).ny = 5 ∧ (setFrame (3/2) (-5/2) 5 7).nx = 7 ∧
    npRound (3/2 : ℚ) - (setFrame (3/2) (-5/2) 5 7).bottom = 2 := by
  have H := setFrame_odd_shape_and_centered (3/2) (-5/2) 5 7
  refine ⟨H.2.2.1 ⟨2, by norm_num⟩, H.2.2.2.1 ⟨3, by norm_num⟩, ?_⟩
  rw [H.2.2.2.2.1, H.1]
  decide

/-- Claim C1 (amended): for every frame and every image shape such that the
frame is not strictly beyond the image on any side, the get_slice_for
selection in local coordinates is exactly the frame/image overlap, it has the
same extent as the bb selection on both axes, and pasting the cropped local
image at bb reproduces the overlap region of the local image exactly, with
the untouched full-image pixels unchanged. -/
theorem getSliceFor_contract (f : Frame) (cy cx : ℚ) (h w : ℕ)
    (hf : f = setFrame cy cx h w) (NY NX : ℤ)
    (hNY : 0 ≤ NY) (hNX : 0 ≤ NX)
    (hTop : 0 ≤ f.top) (hBot : f.bottom ≤ NY)
    (hRight : 0 ≤ f.right) (hLeft : f.left ≤ NX) :
    (∀ y x, sliceSel f NY NX y x ↔ overlapLocal f NY NX y x) ∧
    (getSliceFor f NY NX).1.selLen f.ny = (bbOf f).1.selLen NY ∧
    (getSliceFor f NY NX).2.selLen f.nx = (bbOf f).2.selLen NX ∧
    (∀ (full locim : ℤ → ℤ → ℚ) (Y X : ℤ), 0 ≤ Y → Y < NY → 0 ≤ X → X < NX →
      pasteAt f NY NX full locim Y X =
        if f.bottom ≤ Y ∧ Y < f.top ∧ f.left ≤ X ∧ X < f.right
        then locim (Y - f.bottom) (X - f.left) else full Y X) := by
  have hb : f.bottom + f.ny = f.top := by simp [Frame.ny]
  have hl : f.left + f.nx = f.right := by simp [Frame.nx]
  have hny : 0 < f.ny := by
    subst hf; simp only [setFrame, Frame.ny]; omega
  have hnx : 0 < f.nx := by
    subst hf; simp only [setFrame, Frame.nx]; omega
  have hsy : pyStopEff f.ny (f.ny - max 0 (f.top - NY)) = min (f.ny - max 0 (f.top - NY)) f.ny :=
    pyStopEff_of_nonneg _ _ (by omega)
  have hsx : pyStopEff f.nx (f.nx - max 0 (f.right - NX)) = min (f.nx - max 0 (f.right - NX)) f.nx :=
    pyStopEff_of_nonneg _ _ (by omega)
  have hby : pyStopEff NY f.top = min f.top NY := pyStopEff_of_nonneg _ _ hTop
  have hbx : pyStopEff NX f.right = min f.right NX := pyStopEff_of_nonneg _ _ hRight
  refine ⟨?_, ?_, ?_, ?_⟩
  · intro y x
    simp only [sliceSel, overlapLocal, PySlice.mem, getSliceFor, hsy, hsx]
    omega
  · simp only [PySlice.selLen, getSliceFor, bbOf, hsy, hby]
    omega
  · simp only [PySlice.selLen, getSliceFor, bbOf, hsx, hbx]
    omega
  · intro full locim Y X hY0 hY1 hX0 hX1
    have hidxy : (getSliceFor f NY NX).1.start + (Y - (bbOf f).1.start) = Y - f.bottom := by
      simp only [getSliceFor, bbOf]; omega
    have hidxx : (getSliceFor f NY NX).2.start + (X - (bbOf f).2.start) = X - f.left := by
      simp only [getSliceFor, bbOf]; omega
    have hcond : ((bbOf f).1.mem NY Y ∧ (bbOf f).2.mem NX X) ↔
        (f.bottom ≤ Y ∧ Y < f.top ∧ f.left ≤ X ∧ X < f.right) := by
      simp only [PySlice.mem, bbOf, hby, hbx]
      omega
    unfold pasteAt
    rw [hidxy, hidxx]
    exact if_congr hcond rfl rfl

lemma setFrame_round_trip (cy cx : ℚ) (h w : ℕ) :
    setFrame cy cx (setFrame cy cx h w).ny.toNat (setFrame cy cx h w).nx.toNat
      = setFrame cy cx h w := by
  simp only [setFrame, Frame.ny, Frame.nx, Frame.mk.injEq]
  refine ⟨?_, ?_, ?_, ?_⟩ <;> omega

lemma resizeSliceNew_of_eq {oldLo oldHi newLo newHi : ℤ}
    (heq : oldHi - oldLo = newHi - newLo) :
    resizeSliceNew oldLo oldHi newLo newHi = Option.none := by
  unfold resizeSliceNew
  exact if_pos heq

lemma resizeSliceOld_of_eq {oldLo oldHi newLo newHi : ℤ}
    (heq : oldHi - oldLo = newHi - newLo) :
    resizeSliceOld oldLo oldHi newLo newHi = Option.none := by
  unfold resizeSliceOld
  exact if_pos heq

lemma resizeSliceNew_grow {oldLo oldHi newLo newHi : ℤ} (hB : newLo ≤ oldLo)
    (hT : oldHi ≤ newHi) (hne : oldHi - oldLo ≠ newHi - newLo) :
    resizeSliceNew oldLo oldHi newLo newHi = some ⟨oldLo - newLo, oldHi - newLo⟩ := by
  unfold resizeSliceNew
  rw [if_neg hne]
  simp only [Option.some.injEq, PySlice.mk.injEq]
  constructor <;> omega

lemma resizeSliceOld_grow {oldLo oldHi newLo newHi : ℤ} (hB : newLo ≤ oldLo)
    (hT : oldHi ≤ newHi) (hne : oldHi - oldLo ≠ newHi - newLo) :
    resizeSliceOld oldLo oldHi newLo newHi = some ⟨0, oldHi - oldLo⟩ := by
  unfold resizeSliceOld
  rw [if_neg hne]
  simp only [Option.some.injEq, PySlice.mk.injEq]
  constructor <;> omega

lemma resize_axis_facts (oldLo oldHi newLo newHi i : ℤ) (hB : newLo ≤ oldLo)
    (hT : oldHi ≤ newHi) (hbt : oldLo < oldHi) :
    (memOptSlice (resizeSliceNew oldLo oldHi newLo newHi) (newHi - newLo) i ↔
      (oldLo - newLo ≤ i ∧ i < oldHi - newLo)) ∧
    startOpt (resizeSliceOld oldLo oldHi newLo newHi) = 0 ∧
    startOpt (resizeSliceNew oldLo oldHi newLo newHi) = oldLo - newLo := by
  by_cases heq : oldHi - oldLo = newHi - newLo
  · rw [resizeSliceNew_of_eq heq, resizeSliceOld_of_eq heq]
    refine ⟨?_, rfl, by simp only [startOpt]; omega⟩
    simp only [memOptSlice]
    omega
  · rw [resizeSliceNew_grow hB hT heq, resizeSliceOld_grow hB hT heq]
    simp only [memOptSlice, PySlice.mem, startOpt,
      pyStopEff_of_nonneg _ _ (by omega : (0:ℤ) ≤ oldHi - newLo)]
    exact ⟨by omega, trivial, trivial⟩

/-- Witness for C1 on a frame partially outside the top-left image corner. -/
theorem getSliceFor_contract_witness : sliceSel (setFrame 0 0 3 3) 4 4 1 1 := by
  have h0 : npRound (0 : ℚ) = 0 := by exact_mod_cast npRound_intCast 0
  have hf : setFrame 0 0 3 3 = ⟨-1, 2, -1, 2⟩ := by
    simp only [setFrame, h0]; decide
  refine ((getSliceFor_contract (setFrame 0 0 3 3) 0 0 3 3 rfl 4 4 (by norm_num)
      (by norm_num) ?_ ?_ ?_ ?_).1 1 1).mpr ?_ <;> rw [hf] <;> decide

/-- Counterexample to C1 as stated: a 3-by-1 frame centered at (3, 0) lies
strictly below a 1-by-1 image (its rows are 2..4 versus image row 0), so its
overlap with the image is empty, yet under Python slice semantics (a negative
stop wraps around) the slice returned by get_slice_for selects local pixel
(0, 0), and the numpy paste of this nonempty selection into the empty bb
selection raises a broadcast error rather than reproducing the (empty)
overlap. -/
theorem getSliceFor_fully_outside_counterexample :
    sliceSel (setFrame 3 0 3 1) 1 1 0 0 ∧ ¬ overlapLocal (setFrame 3 0 3 1) 1 1 0 0 := by
  have h3 : npRound (3 : ℚ) = 3 := by exact_mod_cast npRound_intCast 3
  have h0 : npRound (0 : ℚ) = 0 := by exact_mod_cast npRound_intCast 0
  have hf : setFrame 3 0 3 1 = ⟨2, 5, 0, 1⟩ := by
    simp only [setFrame, h3, h0]; decide
  rw [hf]
  decide

lemma npRound_zero : npRound (0 : ℚ) = 0 := by
  exact_mod_cast npRound_intCast 0

lemma sampleSource_frame : sampleSource.frame = setFrame 0 0 1 1 := by
  simp only [sampleSource, setFrame, npRound_zero]
  decide

/-- Claim C7: resize with a size equal to the current frame size is a
no-op: the source object is returned entirely unchanged, so the morphology
array, the center, the frame edges and Gamma are all the same afterwards. -/
theorem resize_same_size_noop (S : Source) (h w : ℕ)
    (hf : S.frame = setFrame S.centerY S.centerX h w) (order : List CKey) :
    resize S S.frame.ny.toNat S.frame.nx.toNat order = S := by
  simp only [resize]
  rw [hf, setFrame_round_trip]
  rw [resizeSliceNew_of_eq rfl, resizeSliceOld_of_eq rfl]
  rw [if_pos ⟨rfl, rfl⟩]

/-- Witness for C7 on a concrete 1-by-1 source. -/
theorem resize_same_size_noop_witness : resize sampleSource 1 1 [] = sampleSource :=
  resize_same_size_noop sampleSource 1 1 sampleSource_frame []

/-- Claim C3: resizing a source built at size (h, w) to a size at least as
large on both axes shifts the frame origin by (dY, dX) = (H/2 - h/2,
W/2 - w/2), every previously existing morphology value is unchanged at the
local coordinate corresponding to the same full-image pixel (old local
(y, x) becomes new local (y + dY, x + dX)), and every newly added pixel of
the new morphology array is exactly zero. -/
theorem resize_larger_conserves (S : Source) (h w H W : ℕ) (order : List CKey)
    (hf : S.frame = setFrame S.centerY S.centerX h w)
    (hH : h ≤ H) (hW : w ≤ W) :
    ((resize S H W order).frame.bottom + (((H / 2 : ℕ) : ℤ) - ((h / 2 : ℕ) : ℤ))
        = S.frame.bottom ∧
     (resize S H W order).frame.left + (((W / 2 : ℕ) : ℤ) - ((w / 2 : ℕ) : ℤ))
        = S.frame.left) ∧
    (∀ k y x, 0 ≤ y → y < S.frame.ny → 0 ≤ x → x < S.frame.nx →
      (resize S H W order).morph k (y + (((H / 2 : ℕ) : ℤ) - ((h / 2 : ℕ) : ℤ)))
          (x + (((W / 2 : ℕ) : ℤ) - ((w / 2 : ℕ) : ℤ))) = S.morph k y x) ∧
    (∀ k y x, 0 ≤ y → y < (resize S H W order).frame.ny → 0 ≤ x →
      x < (resize S H W order).frame.nx →
      ¬ ((((H / 2 : ℕ) : ℤ) - ((h / 2 : ℕ) : ℤ)) ≤ y ∧
          y < (((H / 2 : ℕ) : ℤ) - ((h / 2 : ℕ) : ℤ)) + S.frame.ny ∧
         (((W / 2 : ℕ) : ℤ) - ((w / 2 : ℕ) : ℤ)) ≤ x ∧
          x < (((W / 2 : ℕ) : ℤ) - ((w / 2 : ℕ) : ℤ)) + S.frame.nx) →
      (resize S H W order).morph k y x = 0) := by
  have hy2 : h / 2 ≤ H / 2 := Nat.div_le_div_right hH
  have hx2 : w / 2 ≤ W / 2 := Nat.div_le_div_right hW
  by_cases hsame : h / 2 = H / 2 ∧ w / 2 = W / 2
  · have hFF : setFrame S.centerY S.centerX H W = S.frame := by
      rw [hf]
      simp only [setFrame, Frame.mk.injEq]
      obtain ⟨h1, h2⟩ := hsame
      refine ⟨?_, ?_, ?_, ?_⟩ <;> omega
    have hres : resize S H W order = S := by
      simp only [resize, hFF]
      rw [resizeSliceNew_of_eq rfl, resizeSliceOld_of_eq rfl]
      rw [if_pos ⟨rfl, rfl⟩]
    rw [hres]
    obtain ⟨h1, h2⟩ := hsame
    have e1 : ((H / 2 : ℕ) : ℤ) - ((h / 2 : ℕ) : ℤ) = 0 := by omega
    have e2 : ((W / 2 : ℕ) : ℤ) - ((w / 2 : ℕ) : ℤ) = 0 := by omega
    rw [e1, e2]
    refine ⟨⟨by omega, by omega⟩, ?_, ?_⟩
    · intro k y x _ _ _ _
      rw [add_zero, add_zero]
    · intro k y x hy0 hy1 hx0 hx1 hnot
      exact absurd ⟨by omega, by omega, by omega, by omega⟩ hnot
  · have hfacts : (setFrame S.centerY S.centerX H W).bottom ≤ S.frame.bottom ∧
        S.frame.top ≤ (setFrame S.centerY S.centerX H W).top ∧
        (setFrame S.centerY S.centerX H W).left ≤ S.frame.left ∧
        S.frame.right ≤ (setFrame S.centerY S.centerX H W).right ∧
        S.frame.bottom < S.frame.top ∧ S.frame.left < S.frame.right ∧
        S.frame.bottom - (setFrame S.centerY S.centerX H W).bottom
          = ((H / 2 : ℕ) : ℤ) - ((h / 2 : ℕ) : ℤ) ∧
        S.frame.left - (setFrame S.centerY S.centerX H W).left
          = ((W / 2 : ℕ) : ℤ) - ((w / 2 : ℕ) : ℤ) ∧
        S.frame.top - S.frame.bottom = 2 * ((h / 2 : ℕ) : ℤ) + 1 ∧
        S.frame.right - S.frame.left = 2 * ((w / 2 : ℕ) : ℤ) + 1 ∧
        (setFrame S.centerY S.centerX H W).top -
          (setFrame S.centerY S.centerX H W).bottom = 2 * ((H / 2 : ℕ) : ℤ) + 1 ∧
        (setFrame S.centerY S.centerX H W).right -
          (setFrame S.centerY S.centerX H W).left = 2 * ((W / 2 : ℕ) : ℤ) + 1 := by
      rw [hf]
      simp only [setFrame]
      refine ⟨?_, ?_, ?_, ?_, ?_, ?_, ?_, ?_, ?_, ?_, ?_, ?_⟩ <;> omega
    obtain ⟨hb1, hb2, hb3, hb4, hb5, hb6, hb7, hb8, hb9, hb10, hb11, hb12⟩ := hfacts
    have hguard : ¬ (resizeSliceNew S.frame.bottom S.frame.top
          (setFrame S.centerY S.centerX H W).bottom
          (setFrame S.centerY S.centerX H W).top =
        resizeSliceOld S.frame.bottom S.frame.top
          (setFrame S.centerY S.centerX H W).bottom
          (setFrame S.centerY S.centerX H W).top ∧
        resizeSliceNew S.frame.left S.frame.right
          (setFrame S.centerY S.centerX H W).left
          (setFrame S.centerY S.centerX H W).right =
        resizeSliceOld S.frame.left S.frame.right
          (setFrame S.centerY S.centerX H W).left
          (setFrame S.centerY S.centerX H W).right) := by
      rcases Nat.lt_or_ge (h / 2) (H / 2) with hylt | hyge
      · have hne : S.frame.top - S.frame.bottom ≠
            (setFrame S.centerY S.centerX H W).top -
            (setFrame S.centerY S.centerX H W).bottom := by omega
        rw [resizeSliceNew_grow hb1 hb2 hne, resizeSliceOld_grow hb1 hb2 hne]
        intro hcon
        obtain ⟨hcy, _⟩ := hcon
        simp only [Option.some.injEq, PySlice.mk.injEq] at hcy
        omega
      · have hxlt : w / 2 < W / 2 := by
          rcases Nat.lt_or_ge (w / 2) (W / 2) with hh | hh
          · exact hh
          · exact absurd ⟨by omega, by omega⟩ hsame
        have hne : S.frame.right - S.frame.left ≠
            (setFrame S.centerY S.centerX H W).right -
            (setFrame S.centerY S.centerX H W).left := by omega
        rw [resizeSliceNew_grow hb3 hb4 hne, resizeSliceOld_grow hb3 hb4 hne]
        intro hcon
        obtain ⟨_, hcx⟩ := hcon
        simp only [Option.some.injEq, PySlice.mk.injEq] at hcx
        omega
    have hmy := fun i => resize_axis_facts S.frame.bottom S.frame.top
      (setFrame S.centerY S.centerX H W).bottom
      (setFrame S.centerY S.centerX H W).top i hb1 hb2 hb5
    have hmx := fun i => resize_axis_facts S.frame.left S.frame.right
      (setFrame S.centerY S.centerX H W).left
      (setFrame S.centerY S.centerX H W).right i hb3 hb4 hb6
    simp only [resize, Frame.ny, Frame.nx]
    rw [if_neg hguard]
    simp only [setCenter, setFrame_round_trip]
    refine ⟨⟨?_, ?_⟩, ?_, ?_⟩
    · omega
    · omega
    · intro k y x hy0 hy1 hx0 hx1
      obtain ⟨hmemy, hosy, hnsy⟩ := hmy (y + (((H / 2 : ℕ) : ℤ) - ((h / 2 : ℕ) : ℤ)))
      obtain ⟨hmemx, hosx, hnsx⟩ := hmx (x + (((W / 2 : ℕ) : ℤ) - ((w / 2 : ℕ) : ℤ)))
      rw [if_pos ⟨hmemy.mpr (by constructor <;> omega),
                  hmemx.mpr (by constructor <;> omega)⟩]
      rw [hosy, hnsy, hosx, hnsx]
      have ey : 0 + (y + (((H / 2 : ℕ) : ℤ) - ((h / 2 : ℕ) : ℤ)) -
          (S.frame.bottom - (setFrame S.centerY S.centerX H W).bottom)) = y := by omega
      have ex : 0 + (x + (((W / 2 : ℕ) : ℤ) - ((w / 2 : ℕ) : ℤ)) -
          (S.frame.left - (setFrame S.centerY S.centerX H W).left)) = x := by omega
      rw [ey, ex]
    · intro k y x hy0 hy1 hx0 hx1 hnot
      obtain ⟨hmemy, hosy, hnsy⟩ := hmy y
      obtain ⟨hmemx, hosx, hnsx⟩ := hmx x
      rw [if_neg]
      intro hcon
      obtain ⟨hcy, hcx⟩ := hcon
      rw [hmemy] at hcy
      rw [hmemx] at hcx
      exact hnot ⟨by omega, by omega, by omega, by omega⟩

/-- Witness for C3: growing the 1-by-1 sample source to 3-by-3 keeps its
single pixel at the same full-image position (new local coordinate (1, 1)). -/
theorem resize_larger_conserves_witness :
    (resize sampleSource 3 3 []).morph 0 (0 + (((3 / 2 : ℕ) : ℤ) - ((1 / 2 : ℕ) : ℤ)))
        (0 + (((3 / 2 : ℕ) : ℤ) - ((1 / 2 : ℕ) : ℤ))) = sampleSource.morph 0 0 0 :=
  (resize_larger_conserves sampleSource 1 1 3 3 [] sampleSource_frame
      (by norm_num) (by norm_num)).2.1 0 0 0 (by norm_num) (by decide)
      (by norm_num) (by decide)

lemma setFrame_ny (cy cx : ℚ) (h w : ℕ) :
    (setFrame cy cx h w).ny = 2 * ((h / 2 : ℕ) : ℤ) + 1 := by
  simp only [setFrame, Frame.ny]
  omega

lemma setFrame_nx (cy cx : ℚ) (h w : ℕ) :
    (setFrame cy cx h w).nx = 2 * ((w / 2 : ℕ) : ℤ) + 1 := by
  simp only [setFrame, Frame.nx]
  omega

lemma shapeInv_setCenter (S : Source) (c1 c2 : ℚ) (hS : ShapeInv S) :
    ShapeInv (setCenter S c1 c2) := by
  obtain ⟨s1, s2, s3, s4, s5⟩ := hS
  have hny : S.frame.ny = 2 * ((S.frame.ny.toNat / 2 : ℕ) : ℤ) + 1 := by
    conv_lhs => rw [s5, setFrame_ny]
  have hnx : S.frame.nx = 2 * ((S.frame.nx.toNat / 2 : ℕ) : ℤ) + 1 := by
    conv_lhs => rw [s5, setFrame_nx]
  refine ⟨s1, s2, s3, ?_, ?_⟩
  · show S.morphCols =
      (setFrame c1 c2 S.frame.ny.toNat S.frame.nx.toNat).ny *
      (setFrame c1 c2 S.frame.ny.toNat S.frame.nx.toNat).nx
    rw [setFrame_ny, setFrame_nx, s4, ← hny, ← hnx]
  · show setFrame c1 c2 S.frame.ny.toNat S.frame.nx.toNat =
      setFrame c1 c2
        (setFrame c1 c2 S.frame.ny.toNat S.frame.nx.toNat).ny.toNat
        (setFrame c1 c2 S.frame.ny.toNat S.frame.nx.toNat).nx.toNat
    exact (setFrame_round_trip c1 c2 S.frame.ny.toNat S.frame.nx.toNat).symm

/-- Claim C10 (amended): the container-shape invariant — sed of shape (K, B)
and morph of flat shape (K, Ny*Nx) — holds after construction and is
preserved by set_center, by resize, and by set_constraints; init_source
always resets sed to shape (1, image bands) and morph to shape (1, Ny*Nx),
so it preserves the invariant exactly when the source has K = 1 and the
image has the source's band count. -/
theorem source_shape_invariant :
    (∀ (cy cx : ℚ) (Bb h w K : ℕ) (psf : Bool) (cs : ℕ → CKey → Option Param)
        (order : List CKey), ShapeInv (mkSource cy cx Bb h w K psf cs order)) ∧
    (∀ (S : Source) (c1 c2 : ℚ), ShapeInv S → ShapeInv (setCenter S c1 c2)) ∧
    (∀ (S : Source) (H W : ℕ) (order : List CKey), ShapeInv S →
      ShapeInv (resize S H W order)) ∧
    (∀ (S : Source) (cs : ℕ → CKey → Option Param) (order : List CKey),
      ShapeInv S → ShapeInv (setConstraintsOp S cs order)) ∧
    (∀ (S : Source) (imB : ℕ) (img : ℕ → ℤ → ℤ → ℚ), ShapeInv S →
      S.K = 1 → imB = S.B → ShapeInv (initSource S imB img)) := by
  refine ⟨?_, shapeInv_setCenter, ?_, ?_, ?_⟩
  · intro cy cx Bb h w K psf cs order
    have hbase : ShapeInv
        { B := Bb, K := K, centerY := cy, centerX := cx, frame := setFrame cy cx h w
          sedRows := K, sedCols := Bb, sed := fun _ _ => 0
          morphRows := K, morphCols := (setFrame cy cx h w).ny * (setFrame cy cx h w).nx
          morph := fun _ _ _ => 0
          gamma := ⟨0, 0, Bb, (setFrame cy cx h w).ny, (setFrame cy cx h w).nx⟩
          hasPsf := psf, constraints := cs, compiled := .ok ⟨[], [], [], []⟩ } := by
      refine ⟨rfl, rfl, rfl, rfl, ?_⟩
      exact (setFrame_round_trip cy cx h w).symm
    have h1 := shapeInv_setCenter _ cy cx hbase
    obtain ⟨s1, s2, s3, s4, s5⟩ := h1
    exact ⟨s1, s2, s3, s4, s5⟩
  · intro S H W order hS
    obtain ⟨s1, s2, s3, s4, s5⟩ := hS
    simp only [resize]
    split_ifs with hg
    · exact ⟨s1, s2, s3, s4, s5⟩
    · have hrt := setFrame_round_trip S.centerY S.centerX H W
      refine ⟨s1, s2, rfl, ?_, ?_⟩
      · show (setFrame S.centerY S.centerX H W).ny * (setFrame S.centerY S.centerX H W).nx =
          (setFrame S.centerY S.centerX
            (setFrame S.centerY S.centerX H W).ny.toNat
            (setFrame S.centerY S.centerX H W).nx.toNat).ny *
          (setFrame S.centerY S.centerX
            (setFrame S.centerY S.centerX H W).ny.toNat
            (setFrame S.centerY S.centerX H W).nx.toNat).nx
        rw [hrt]
      · show setFrame S.centerY S.centerX
            (setFrame S.centerY S.centerX H W).ny.toNat
            (setFrame S.centerY S.centerX H W).nx.toNat =
          setFrame S.centerY S.centerX
            (setFrame S.centerY S.centerX
              (setFrame S.centerY S.centerX H W).ny.toNat
              (setFrame S.centerY S.centerX H W).nx.toNat).ny.toNat
            (setFrame S.centerY S.centerX
              (setFrame S.centerY S.centerX H W).ny.toNat
              (setFrame S.centerY S.centerX H W).nx.toNat).nx.toNat
        rw [hrt]
        exact hrt.symm
  · intro S cs order hS
    exact hS
  · intro S imB img hS hK himB
    obtain ⟨s1, s2, s3, s4, s5⟩ := hS
    exact ⟨by simpa using hK.symm, by simpa using himB, by simpa using hK.symm, rfl, s5⟩

/-- Witness for C10 at a concrete construction and a K = 1 init_source. -/
theorem source_shape_invariant_witness :
    ShapeInv (mkSource 0 0 1 1 1 1 false (fun _ _ => Option.none) []) ∧
    ShapeInv (initSource sampleSource 1 (fun _ _ _ => 0)) := by
  refine ⟨source_shape_invariant.1 0 0 1 1 1 1 false (fun _ _ => Option.none) [], ?_⟩
  refine source_shape_invariant.2.2.2.2 sampleSource 1 (fun _ _ _ => 0) ?_ rfl rfl
  exact ⟨rfl, rfl, rfl, by decide, sampleSource_frame⟩

/-- Counterexample to C10 as stated: init_source on a source with K = 2
resets sed to a single-component (1, B) array (and morph to one row), so the
sed shape (K, B) is not preserved by init_source when K is at least 2. -/
theorem initSource_breaks_shape_invariant :
    ShapeInv twoCompSource ∧
    ¬ ShapeInv (initSource twoCompSource 1 (fun _ _ _ => 0)) := by
  constructor
  · exact ⟨rfl, rfl, rfl, by decide, sampleSource_frame⟩
  · intro hcon
    have h1 := hcon.1
    simp only [initSource, twoCompSource, sampleSource] at h1
    exact absurd h1 (by decide)

/-- Claim C9 (code bug): declaring the "C" cone constraint makes
set_constraints raise AttributeError instead of completing — the branch
evaluates self.constraints.get("M", False), but self.constraints is by then
always a Python list, and lists have no attribute get — so the cone
projection operator is never appended. -/
theorem setConstraints_C_key_raises :
    setConstraints 1 (5, 5) csOnlyC [CKey.C] = .error PyErr.attributeError := rfl

/-- Claim C2 (code bug): prox_morph is initialized as the Python expression
[[],]*K, which aliases one list object into all K slots, so the operators of
every component are appended to a single shared list and each component's
composed operator is built from that shared list.  With component 0
declaring only "+" and component 1 declaring only "l1", both components end
up with AlternatingProjections([prox_plus, prox_soft]), although the
per-component guards show each component was meant to receive only the
operators of its own keys. -/
theorem setConstraints_aliased_prox_morph :
    setConstraints 2 (3, 3) csAliasBug [CKey.plus, CKey.l1] =
      .ok ⟨[ProxOp.unityPlus, ProxOp.unityPlus],
           [ProxOp.altProj [ProxOp.plus, ProxOp.soft (Param.q (1/10))] 1,
            ProxOp.altProj [ProxOp.plus, ProxOp.soft (Param.q (1/10))] 1],
           [], []⟩ ∧
    ProxOp.altProj [ProxOp.plus, ProxOp.soft (Param.q (1/10))] 1 ≠ ProxOp.plus ∧
    ProxOp.altProj [ProxOp.plus, ProxOp.soft (Param.q (1/10))] 1 ≠
      ProxOp.soft (Param.q (1/10)) :=
  ⟨rfl, by simp, by simp⟩

lemma prox_plus_soft_comm (t x : ℚ) :
    evalAtom ProxOp.plus (evalAtom (ProxOp.soft (Param.q t)) x) =
    evalAtom (ProxOp.soft (Param.q t)) (evalAtom ProxOp.plus x) := by
  simp only [evalAtom, qsign]
  rcases lt_trichotomy x 0 with hx | hx | hx
  · have h0 : x ⊔ 0 = (0 : ℚ) := max_eq_right hx.le
    simp only [if_pos hx, h0]
    norm_num [neg_one_mul]
  · subst hx
    norm_num
  · have h0 : x ⊔ 0 = x := max_eq_left hx.le
    simp only [if_neg (not_lt.mpr hx.le), if_neg hx.ne', h0, one_mul]
    exact max_eq_left (le_max_right _ _)

/-- Claim C6: for a single component whose constraint spec has exactly the
keys "+" and "l1", the composed direct operator built by set_constraints,
evaluated at any input value, equals prox_plus applied first and prox_soft
applied second, for every l1 threshold and either possible key iteration
order (the two operators commute as a composition). -/
theorem setConstraints_plus_l1_canonical (t : ℚ) (pp : Param) (shape : ℤ × ℤ)
    (order : List CKey)
    (horder : order = [CKey.plus, CKey.l1] ∨ order = [CKey.l1, CKey.plus])
    (x : ℚ) :
    ∃ r, setConstraints 1 shape
        (fun _ c => match c with
          | CKey.plus => some pp
          | CKey.l1 => some (Param.q t)
          | _ => Option.none) order = .ok r ∧
      ∃ op, r.proxMorph = [op] ∧
        evalProx op x = evalAtom (ProxOp.soft (Param.q t)) (evalAtom ProxOp.plus x) := by
  rcases horder with ho | ho <;> subst ho
  · exact ⟨_, rfl, _, rfl, rfl⟩
  · refine ⟨_, rfl, _, rfl, ?_⟩
    show evalAtom ProxOp.plus (evalAtom (ProxOp.soft (Param.q t)) x) = _
    exact prox_plus_soft_comm t x

/-- Witness for C6 at threshold 2, input 5, canonical order. -/
theorem setConstraints_plus_l1_canonical_witness :
    ∃ r, setConstraints 1 (3, 3)
        (fun _ c => match c with
          | CKey.plus => some Param.pynone
          | CKey.l1 => some (Param.q 2)
          | _ => Option.none) [CKey.l1, CKey.plus] = .ok r ∧
      ∃ op, r.proxMorph = [op] ∧
        evalProx op 5 = evalAtom (ProxOp.soft (Param.q 2)) (evalAtom ProxOp.plus 5) :=
  setConstraints_plus_l1_canonical 2 Param.pynone (3, 3) [CKey.l1, CKey.plus]
    (Or.inr rfl) 5

lemma runKeys_append_ok (K : ℕ) (shape : ℤ × ℤ) (cs : ℕ → CKey → Option Param)
    {L1 : List CKey} {st st1 : BuildState} (L2 : List CKey)
    (h : runKeys K shape cs L1 st = .ok st1) :
    runKeys K shape cs (L1 ++ L2) st = runKeys K shape cs L2 st1 := by
  induction L1 generalizing st with
  | nil =>
    simp only [runKeys] at h
    cases h
    rfl
  | cons c rest ih =>
    rw [List.cons_append]
    simp only [runKeys] at h ⊢
    cases hstep : stepKey K shape cs c st with
    | error e =>
      rw [hstep] at h
      exact absurd h (by simp)
    | ok st' =>
      rw [hstep] at h
      exact ih h

lemma stepKey_not_MC (K : ℕ) (shape : ℤ × ℤ) (cs : ℕ → CKey → Option Param)
    (c : CKey) (hM : c ≠ CKey.M) (hC : c ≠ CKey.C) (st : BuildState) :
    ∃ sh dls dps, stepKey K shape cs c st = .ok ⟨sh, st.ls ++ dls, st.ps ++ dps⟩ ∧
      dls.length = dps.length ∧ noRadial dls := by
  have hmap : ∀ (f : ℕ → Option LinOp) (g : ℕ → Option ProxOp),
      ((List.range K).map f).length = ((List.range K).map g).length := by
    intro f g
    simp
  cases c
  case plus =>
    refine ⟨st.shared ++ (List.range K).filterMap (fun k =>
      (cs k CKey.plus).map (fun _ => ProxOp.plus)), [], [], ?_, rfl, by simp [noRadial]⟩
    simp [stepKey]
  case l0 =>
    refine ⟨st.shared ++ (List.range K).filterMap (fun k =>
      (cs k CKey.l0).map (fun t => ProxOp.hard t)), [], [], ?_, rfl, by simp [noRadial]⟩
    simp [stepKey]
  case l1 =>
    refine ⟨st.shared ++ (List.range K).filterMap (fun k =>
      (cs k CKey.l1).map (fun t => ProxOp.soft t)), [], [], ?_, rfl, by simp [noRadial]⟩
    simp [stepKey]
  case m =>
    refine ⟨st.shared ++ (List.range K).filterMap (fun k =>
      (cs k CKey.m).map (fun t => ProxOp.strictMonotonic shape t)), [], [], ?_, rfl,
      by simp [noRadial]⟩
    simp [stepKey]
  case M => exact absurd rfl hM
  case C => exact absurd rfl hC
  case S =>
    refine ⟨st.shared, _, _, rfl, hmap _ _, ?_⟩
    intro L hL s p
    simp only [List.mem_map] at hL
    obtain ⟨k, _, hk⟩ := hL
    rw [← hk]
    split_ifs <;> simp
  case X =>
    refine ⟨st.shared, _, _, rfl, hmap _ _, ?_⟩
    intro L hL s p
    simp only [List.mem_map] at hL
    obtain ⟨k, _, hk⟩ := hL
    rw [← hk]
    split_ifs <;> simp
  case Y =>
    refine ⟨st.shared, _, _, rfl, hmap _ _, ?_⟩
    intro L hL s p
    simp only [List.mem_map] at hL
    obtain ⟨k, _, hk⟩ := hL
    rw [← hk]
    split_ifs <;> simp

lemma runKeys_no_MC (K : ℕ) (shape : ℤ × ℤ) (cs : ℕ → CKey → Option Param)
    (L : List CKey) (hM : CKey.M ∉ L) (hC : CKey.C ∉ L) (st : BuildState) :
    ∃ sh dls dps, runKeys K shape cs L st = .ok ⟨sh, st.ls ++ dls, st.ps ++ dps⟩ ∧
      dls.length = dps.length ∧ noRadial dls := by
  induction L generalizing st with
  | nil =>
    exact ⟨st.shared, [], [], by simp [runKeys], rfl, by simp [noRadial]⟩
  | cons c rest ih =>
    have hMc : c ≠ CKey.M := fun hcon => hM (hcon ▸ List.mem_cons_self c rest)
    have hCc : c ≠ CKey.C := fun hcon => hC (hcon ▸ List.mem_cons_self c rest)
    have hMr : CKey.M ∉ rest := fun hcon => hM (List.mem_cons_of_mem c hcon)
    have hCr : CKey.C ∉ rest := fun hcon => hC (List.mem_cons_of_mem c hcon)
    obtain ⟨sh1, d1, p1, heq1, hlen1, hrad1⟩ := stepKey_not_MC K shape cs c hMc hCc st
    obtain ⟨sh2, d2, p2, heq2, hlen2, hrad2⟩ := ih hMr hCr ⟨sh1, st.ls ++ d1, st.ps ++ p1⟩
    refine ⟨sh2, d1 ++ d2, p1 ++ p2, ?_, by simp [hlen1, hlen2], ?_⟩
    · simp only [runKeys, heq1]
      rw [heq2]
      simp [List.append_assoc]
    · intro L hL s p
      rcases List.mem_append.mp hL with h1 | h2
      · exact hrad1 L h1 s p
      · exact hrad2 L h2 s p

lemma stepKey_M_spec (K : ℕ) (shape : ℤ × ℤ) (cs : ℕ → CKey → Option Param)
    (st : BuildState) (p : Param) (hp : cs 0 CKey.M = some p) :
    stepKey K shape cs CKey.M st = .ok ⟨st.shared,
      st.ls ++ (List.range K).map (fun k =>
        if (cs k CKey.M).isSome then some (LinOp.radialMonotonic shape p)
        else Option.none),
      st.ps ++ (List.range K).map (fun k =>
        if (cs k CKey.M).isSome then some ProxOp.plus else Option.none)⟩ := by
  simp only [stepKey, hp]

/-- Claim C8 (amended): if component 0 declares the "M" key (with parameter
p) and no component declares "C", then set_constraints succeeds, the
dualized lists contain exactly one block of radial-monotonicity slots —
positionally aligned over components, with every declaring component paired
with the shared operator built from component 0's parameter p only (other
components' parameters are ignored) together with prox_plus, and None in
both lists for non-declaring components — and no radial-monotonicity
operator appears anywhere else. -/
theorem setConstraints_M_uses_component0 (K : ℕ) (shape : ℤ × ℤ)
    (cs : ℕ → CKey → Option Param) (p : Param) (order : List CKey)
    (hM0 : cs 0 CKey.M = some p) (hMo : CKey.M ∈ order) (hC : CKey.C ∉ order)
    (hnd : order.Nodup) :
    ∃ r pre post preP postP,
      setConstraints K shape cs order = .ok r ∧
      r.ls1 = pre ++ (List.range K).map (fun k =>
        if (cs k CKey.M).isSome then some (LinOp.radialMonotonic shape p)
        else Option.none) ++ post ∧
      r.ps1 = preP ++ (List.range K).map (fun k =>
        if (cs k CKey.M).isSome then some ProxOp.plus else Option.none) ++ postP ∧
      pre.length = preP.length ∧ post.length = postP.length ∧
      noRadial pre ∧ noRadial post := by
  obtain ⟨o1, o2, ho⟩ := List.append_of_mem hMo
  subst ho
  have hno1 : CKey.M ∉ o1 := by
    intro hcon
    rcases List.nodup_append.mp hnd with ⟨_, _, hdisj⟩
    exact hdisj hcon (List.mem_cons_self _ _)
  have hnd2 : (CKey.M :: o2).Nodup := (List.nodup_append.mp hnd).2.1
  have hno2 : CKey.M ∉ o2 := (List.nodup_cons.mp hnd2).1
  have hC1 : CKey.C ∉ o1 := fun hcon => hC (List.mem_append.mpr (Or.inl hcon))
  have hC2 : CKey.C ∉ o2 := fun hcon =>
    hC (List.mem_append.mpr (Or.inr (List.mem_cons_of_mem _ hcon)))
  obtain ⟨sh1, d1, p1, heq1, hlen1, hrad1⟩ :=
    runKeys_no_MC K shape cs o1 hno1 hC1 ⟨[], [], []⟩
  have heqM := stepKey_M_spec K shape cs ⟨sh1, [] ++ d1, [] ++ p1⟩ p hM0
  obtain ⟨sh2, d2, p2, heq2, hlen2, hrad2⟩ :=
    runKeys_no_MC K shape cs o2 hno2 hC2
      ⟨sh1,
       ([] ++ d1) ++ (List.range K).map (fun k =>
         if (cs k CKey.M).isSome then some (LinOp.radialMonotonic shape p)
         else Option.none),
       ([] ++ p1) ++ (List.range K).map (fun k =>
         if (cs k CKey.M).isSome then some ProxOp.plus else Option.none)⟩
  have hrun : runKeys K shape cs (o1 ++ CKey.M :: o2) ⟨[], [], []⟩ =
      .ok ⟨sh2,
        (([] ++ d1) ++ (List.range K).map (fun k =>
          if (cs k CKey.M).isSome then some (LinOp.radialMonotonic shape p)
          else Option.none)) ++ d2,
        (([] ++ p1) ++ (List.range K).map (fun k =>
          if (cs k CKey.M).isSome then some ProxOp.plus else Option.none)) ++ p2⟩ := by
    rw [runKeys_append_ok K shape cs (CKey.M :: o2) heq1]
    simp only [runKeys, heqM]
    exact heq2
  refine ⟨⟨List.replicate K ProxOp.unityPlus, List.replicate K (collapseShared sh2),
      (([] ++ d1) ++ (List.range K).map (fun k =>
        if (cs k CKey.M).isSome then some (LinOp.radialMonotonic shape p)
        else Option.none)) ++ d2,
      (([] ++ p1) ++ (List.range K).map (fun k =>
        if (cs k CKey.M).isSome then some ProxOp.plus else Option.none)) ++ p2⟩,
    d1, d2, p1, p2, ?_, ?_, ?_, hlen1, hlen2, hrad1, hrad2⟩
  · simp only [setConstraints, hrun]
  · simp [List.append_assoc]
  · simp [List.append_assoc]

/-- Witness for C8: both components declare "M" with different parameters;
the compiled block uses component 0's parameter (true) for both. -/
theorem setConstraints_M_uses_component0_witness :
    ∃ r pre post preP postP,
      setConstraints 2 (3, 3) csBothM [CKey.M] = .ok r ∧
      r.ls1 = pre ++ (List.range 2).map (fun k =>
        if (csBothM k CKey.M).isSome then some (LinOp.radialMonotonic (3, 3) (Param.b true))
        else Option.none) ++ post ∧
      r.ps1 = preP ++ (List.range 2).map (fun k =>
        if (csBothM k CKey.M).isSome then some ProxOp.plus else Option.none) ++ postP ∧
      pre.length = preP.length ∧ post.length = postP.length ∧
      noRadial pre ∧ noRadial post :=
  setConstraints_M_uses_component0 2 (3, 3) csBothM (Param.b true) [CKey.M]
    rfl (List.mem_cons_self _ _) (by simp) (List.nodup_cons.mpr ⟨by simp, List.nodup_nil⟩)

/-- Counterexample to C8 as stated: when only component 1 declares "M" (so
some component declares the key but component 0 does not), set_constraints
raises KeyError reading component 0's parameter instead of building the
operator. -/
theorem setConstraints_M_comp0_missing_counterexample :
    setConstraints 2 (3, 3) csOnlyComp1M [CKey.M] = .error PyErr.keyError := rfl

/-- Claim C4 (amended): get_morph_error returns error values that are
exactly zero at every frame pixel whose summed embedded weight is exactly
zero — in both the PSF and no-PSF configurations, whatever values the
PSF branch's linear algebra produces — provided at least one frame pixel
has nonzero summed weight (with every pixel masked, the minimum over the
empty unmasked set raises instead); get_sed_error applies no such masking. -/
theorem getMorphError_masked_zero (isqrt : ℚ → ℚ) (S : Source) (NY NX : ℤ)
    (weights : ℕ → ℤ → ℤ → ℚ) (psfRaw : ℕ → ℤ → ℚ) (p0 q0 : ℤ)
    (hp : 0 ≤ p0) (hp2 : p0 < S.frame.ny * S.frame.nx)
    (hmask : (∑ bnd ∈ Finset.range S.B, wFlat S NY NX weights bnd p0) = 0)
    (hq : 0 ≤ q0) (hq2 : q0 < S.frame.ny * S.frame.nx)
    (hqn : (∑ bnd ∈ Finset.range S.B, wFlat S NY NX weights bnd q0) ≠ 0) :
    ∃ me, getMorphError isqrt S NY NX weights psfRaw = some me ∧
      ∀ k, me k p0 = 0 := by
  simp only [getMorphError]
  rw [if_pos ⟨p0, Finset.mem_filter.mpr ⟨Finset.mem_Ico.mpr ⟨hp, hp2⟩, hmask⟩⟩]
  rw [dif_pos ⟨q0, Finset.mem_filter.mpr ⟨Finset.mem_Ico.mpr ⟨hq, hq2⟩, hqn⟩⟩]
  exact ⟨_, rfl, fun k => if_pos hmask⟩

/-- Witness for C4: a 1-by-2 frame on a 1-by-2 image whose weights vanish at
pixel 0 only; the morphology error at pixel 0 is exactly zero. -/
theorem getMorphError_masked_zero_witness :
    ∃ me, getMorphError (fun _ => 1) maskSource 1 2 maskWeights (fun _ _ => 3) = some me ∧
      ∀ k, me k 0 = 0 := by
  refine getMorphError_masked_zero (fun _ => 1) maskSource 1 2 maskWeights
    (fun _ _ => 3) 0 1 (by norm_num) (by decide) ?_ (by norm_num) (by decide) ?_
  · simp [wFlat, embedWeights, maskWeights, maskSource, sampleSource, sliceSel,
      getSliceFor, bbOf, PySlice.mem, pyStopEff, Frame.ny, Frame.nx]
  · simp [wFlat, embedWeights, maskWeights, maskSource, sampleSource, sliceSel,
      getSliceFor, bbOf, PySlice.mem, pyStopEff, Frame.ny, Frame.nx]

/-- Counterexample to C4 as stated: with all weights zero, the single frame
pixel of this source has summed weight exactly zero, yet get_sed_error
(which never applies the zero-masking step) returns the value of 1/sqrt at
0 — here the abstract inverse square root maps everything to 1 — rather
than exactly zero. -/
theorem getSedError_no_masking_counterexample :
    (∑ bnd ∈ Finset.range sedErrSource.B,
        wFlat sedErrSource 1 1 (fun _ _ _ => 0) bnd 0) = 0 ∧
    getSedError (fun _ => 1) sedErrSource 1 1 (fun _ _ _ => 0) (fun _ _ => 0) 0 0 = 1 := by
  constructor
  · simp [wFlat, embedWeights, sedErrSource, sampleSource]
  · simp [getSedError, sedErrSource, sampleSource, wFlat, embedWeights, morphFlat]

end Scarlet
